import Mathlib

/-!
Verification development for `data_preprocess.cpp`: a single-process pipeline
that reads a JSON array of `{id, text}` documents, encodes each `text` to a
fixed-length embedding vector through an external inference engine
(llama.cpp), and writes a JSON array of `{id, text, embedding}` records.

The external inference engine (model loading, tokenizer, forward pass,
embedding extraction) is an opaque collaborator of the program: it is
modelled here as a record of deterministic functions indexed by an abstract
internal-context state, so that the driver and encoder-wrapper logic of the
C++ source can be embedded shallowly and reasoned about.  Embedding scalars
are opaque float values that the program only ever copies verbatim; they are
represented by `Int` as an uninterpreted carrier with decidable equality.
-/

/-- Carrier for the opaque float values the engine produces; the program
never computes with them, only copies them, so an uninterpreted type with
decidable equality suffices. -/
abbrev EmbFloat := Int

/-! ### The external inference engine, modelled opaquely -/

/-- State of one `llama_context`: the pooled-embedding buffer for sequence 0
(`none` models a null pointer from `llama_get_embeddings_seq`), plus an
abstract counter for the KV/compute state that every forward pass mutates.
A buffer is a total function `Nat → EmbFloat`, modelling a raw `float*`
from which the caller may read any number of entries. -/
structure Ctx where
  kvState : Nat
  seqEmb : Option (Nat → EmbFloat)

/-- Opaque behaviour of the inference engine.  `tok` models
`llama_tokenize` with `add_special = parse_special = true` (the token list
already carries the BOS/EOS markers); `encodeStatus` and `pooledEmb` model
the status returned by `llama_encode` and the pooled buffer it leaves in
the context, both allowed to consult the abstract context state. -/
structure Engine where
  tok : String → List Int
  encodeStatus : Nat → List Int → Int
  pooledEmb : Nat → List Int → Option (Nat → EmbFloat)

/-- Model of `llama_tokenize`: returns the token count when it fits in the
caller's buffer of capacity `nTokensMax`, and the negated required count
when it does not (the library's signed-return convention).  The dry-run
call in the source passes a null buffer, i.e. capacity 0. -/
def llama_tokenize (tok : String → List Int) (text : String)
    (nTokensMax : Nat) : Int :=
  if (tok text).length ≤ nTokensMax then ((tok text).length : Int)
  else -(((tok text).length : Int))

/-- Model of `llama_encode`: on status 0 the forward pass succeeds and the
pooled-embedding buffer for the batch replaces the context's buffer; on a
nonzero status the buffer is untouched.  Either way the internal compute
state advances (the context is mutated by every call). -/
def llama_encode (E : Engine) (c : Ctx) (batch : List Int) : Ctx × Int :=
  if E.encodeStatus c.kvState batch = 0 then
    ({ kvState := c.kvState + 1, seqEmb := E.pooledEmb c.kvState batch }, 0)
  else
    ({ c with kvState := c.kvState + 1 }, E.encodeStatus c.kvState batch)

/-- Model of `llama_get_embeddings_seq ctx 0`: the context's pooled buffer
for sequence 0, `none` for a null pointer. -/
def llama_get_embeddings_seq (c : Ctx) (seqId : Nat) :
    Option (Nat → EmbFloat) :=
  if seqId = 0 then c.seqEmb else none

/-- Reading `n` consecutive floats from a raw buffer pointer, as
`std::vector<float> embedding(embd, embd + n_embd)` does. -/
def readFloats (buf : Nat → EmbFloat) (n : Nat) : List EmbFloat :=
  (List.range n).map buf

/-- The relevant facts about a loaded `llama_model`: its embedding
dimensionality (`llama_n_embd`, a C `int`) and whether
`llama_model_has_encoder` holds. -/
structure LlamaModel where
  n_embd : Int
  hasEncoder : Bool
deriving DecidableEq

/-- The `llama_context_params` fields the source sets explicitly. -/
structure CtxParams where
  n_ctx : Nat
  n_batch : Nat
  embeddings : Bool
  no_perf : Bool
deriving DecidableEq

/-- The context configuration of the source: `n_ctx = 512`, `n_batch = 512`,
embedding mode on, performance counters on (`no_perf = false`). -/
def bgeCtxParams : CtxParams :=
  { n_ctx := 512, n_batch := 512, embeddings := true, no_perf := false }

/-- The hardcoded model path of the source. -/
def modelPathConst : String := "bge-base-en-v1.5-f32.gguf"

/-! ### The encoder wrapper -/

/-- `BGEEncoder`'s state: the embedding dimension read from the model at
construction and the owned inference context.  (The model and vocab handles
carry no further state the embedded code consults.) -/
structure BGEEncoder where
  n_embd : Int
  ctx : Ctx

/-- `get_embedding_dim` of the source. -/
def BGEEncoder.get_embedding_dim (e : BGEEncoder) : Int := e.n_embd

/-- Resource events of encoder construction, used to state the no-leak
property of the partial-construction path. -/
inductive REvent where
  | modelLoad
  | modelFree
  | ctxInit
deriving DecidableEq

/-- `true` when every loaded model handle in the trace has been freed. -/
def modelBalanced (evs : List REvent) : Bool :=
  evs.count .modelLoad == evs.count .modelFree

/-- Warning emitted when the model's embedding dimension is not 768. -/
def dimWarningMsg (m : LlamaModel) : String :=
  "Warning: Expected embedding dimension 768, got " ++ toString m.n_embd

/-- Warning emitted when the model is not flagged encoder-capable. -/
def encWarningMsg : String :=
  "Warning: Model does not appear to be an encoder model"

/-- Outcome of running the `BGEEncoder` constructor: the constructed
encoder or the propagated exception message, the warnings printed to
stderr, and the trace of model-handle resource events. -/
structure CtorOutcome where
  result : Except String BGEEncoder
  warnings : List String
  events : List REvent

/-- The `BGEEncoder` constructor, embedded from the source.  `mload` is the
result of `llama_load_model_from_file` on the hardcoded path (`none` for a
null handle); `cinit` is `llama_init_from_model`, which receives the
context parameters the source fills in.  The source: throws if the model
fails to load; reads `n_embd` and warns (non-fatally) when it is not 768;
creates the context; on context failure frees the model and throws; finally
warns (non-fatally) when the model is not encoder-capable. -/
def BGEEncoder.construct (mload : Option LlamaModel)
    (cinit : LlamaModel → CtxParams → Option Ctx) : CtorOutcome :=
  match mload with
  | none =>
      { result := .error ("Failed to load model from: " ++ modelPathConst),
        warnings := [], events := [] }
  | some m =>
      let warnDim := if m.n_embd ≠ 768 then [dimWarningMsg m] else []
      match cinit m bgeCtxParams with
      | none =>
          { result := .error "Failed to create context",
            warnings := warnDim,
            events := [.modelLoad, .modelFree] }
      | some c =>
          let warnEnc := if ¬ m.hasEncoder then [encWarningMsg] else []
          { result := .ok { n_embd := m.n_embd, ctx := c },
            warnings := warnDim ++ warnEnc,
            events := [.modelLoad, .ctxInit] }

/-- `BGEEncoder::encode`, embedded step by step from the source:
dry-run tokenize (null buffer) and negate the return value; throw if the
count is not positive; tokenize into a buffer of exactly that size and
throw on a negative return; build a one-sequence batch from the tokens;
run `llama_encode` and throw on a nonzero status; fetch the pooled
embedding pointer for sequence 0 and throw if it is null; copy exactly
`n_embd` floats.  The mutated context is threaded back into the encoder. -/
def BGEEncoder.encode (E : Engine) (enc : BGEEncoder) (text : String) :
    Except String (BGEEncoder × List EmbFloat) :=
  let n_tokens : Int := -(llama_tokenize E.tok text 0)
  if n_tokens ≤ 0 then
    .error "Failed to tokenize text"
  else if llama_tokenize E.tok text n_tokens.toNat < 0 then
    .error "Failed to tokenize text"
  else
    let tokens := E.tok text
    let r := llama_encode E enc.ctx tokens
    if r.2 ≠ 0 then
      .error "Failed to encode batch"
    else
      match llama_get_embeddings_seq r.1 0 with
      | none => .error "Failed to get embeddings"
      | some embd =>
          .ok ({ enc with ctx := r.1 }, readFloats embd enc.n_embd.toNat)

/-! ### The JSON data model (nlohmann::json as the source uses it) -/

/-- JSON values as the program manipulates them.  Integers are
`number_integer_t` values (`int64_t` in nlohmann; the parser never produces
anything wider), kept as `Int`.  Floating-point numbers are
`number_float_t` values (`double`); every value the parser can store there
is rational, and the program never computes with one — it only
`static_cast`s it — so the stored value is kept as `Rat`. -/
inductive Json where
  | null
  | jbool (b : Bool)
  | jint (n : Int)
  | jfloat (q : Rat)
  | jstr (s : String)
  | jarr (xs : List Json)
  | jobj (kvs : List (String × Json))

/-- The key `"text"`. -/
def keyText : String := "text"

/-- The key `"id"`. -/
def keyId : String := "id"

/-- nlohmann `operator[](const char*)` on a mutable json: on an object it
returns the value at the key, inserting `null` when the key is missing; on
`null` it converts to an object and likewise yields `null`; on any other
type it throws `type_error.305`. -/
def Json.index (j : Json) (key : String) : Except String Json :=
  match j with
  | .jobj kvs =>
      match kvs.lookup key with
      | some v => .ok v
      | none => .ok .null
  | .null => .ok .null
  | _ => .error "type_error.305: cannot use operator[] with a string argument"

/-- nlohmann `.get<std::string>()`: the string, or `type_error.302` on any
other JSON type. -/
def Json.getStr (j : Json) : Except String String :=
  match j with
  | .jstr s => .ok s
  | _ => .error "type_error.302: type must be string"

/-- `static_cast<int>` of a stored 64-bit JSON integer: reduction modulo
2^32, reinterpreted as a signed 32-bit value. -/
def toInt32 (n : Int) : Int :=
  if n % 2 ^ 32 < 2 ^ 31 then n % 2 ^ 32 else n % 2 ^ 32 - 2 ^ 32

/-- `static_cast<int>` of a stored `number_float_t`: the double's value
truncated toward zero.  Only a truncation that fits in `int` has defined
behaviour in C++; the model takes the same 32-bit wrap as the integer cast
there, and no theorem relies on an out-of-range float. -/
def floatCastInt (q : Rat) : Int := toInt32 (q.num.tdiv (q.den : Int))

/-- nlohmann `.get<int>()`: succeeds on any stored JSON number —
`number_integer_t` is narrowed to 32 bits with `static_cast<int>` (no
range check), and a `number_float_t` is likewise `static_cast` (truncated
toward zero), not rejected; throws `type_error.302` only on a non-numeric
JSON type. -/
def Json.getInt (j : Json) : Except String Int :=
  match j with
  | .jint n => .ok (toInt32 n)
  | .jfloat q => .ok (floatCastInt q)
  | _ => .error "type_error.302: type must be number"

/-- nlohmann `size()`: element count of an array or object, 0 for `null`,
1 for any primitive. -/
def Json.size (j : Json) : Nat :=
  match j with
  | .jarr xs => xs.length
  | .jobj kvs => kvs.length
  | .null => 0
  | _ => 1

/-! ### The driver (`main`) -/

/-- One output record: `{id, text, embedding}`. -/
structure OutEntry where
  id : Int
  text : String
  embedding : List EmbFloat
deriving DecidableEq

/-- Field extraction for one document, in source order:
`doc["text"].get<std::string>()` then `doc["id"].get<int>()`; each step may
throw. -/
def extractDoc (d : Json) : Except String (String × Int) :=
  match d.index keyText with
  | .error e => .error e
  | .ok tj =>
    match tj.getStr with
    | .error e => .error e
    | .ok t =>
      match d.index keyId with
      | .error e => .error e
      | .ok ij =>
        match ij.getInt with
        | .error e => .error e
        | .ok n => .ok (t, n)

/-- The processing loop of `main` from document index `i` on: for each
document, print a progress line when `i % 100 == 0`, extract the fields,
encode the text (threading the encoder's mutated context), and append the
output record.  Returns the indices at which a progress line was printed
(also on the prefix of an aborted run) and either the produced records or
the exception that aborted the loop. -/
def processFrom (E : Engine) :
    BGEEncoder → List Json → Nat → List Nat × Except String (List OutEntry)
  | _, [], _ => ([], .ok [])
  | enc, d :: rest, i =>
    let prog : List Nat := if i % 100 = 0 then [i] else []
    match extractDoc d with
    | .error e => (prog, .error e)
    | .ok te =>
      match BGEEncoder.encode E enc te.1 with
      | .error e => (prog, .error e)
      | .ok encEmb =>
        let tail := processFrom E encEmb.1 rest (i + 1)
        (prog ++ tail.1,
          match tail.2 with
          | .error e => .error e
          | .ok out =>
              .ok ({ id := te.2, text := te.1, embedding := encEmb.2 } :: out))

/-- The environment a run of `main` executes in: whether the input file
opens, the parse result of its contents, the engine, the results of model
loading and context creation, and whether the output file opens for
writing. -/
structure World where
  inputOpen : Bool
  inputJson : Except String Json
  mload : Option LlamaModel
  cinit : LlamaModel → CtxParams → Option Ctx
  eng : Engine
  outputOpen : Bool

/-- Observable outcome of a run: the process exit code, the contents of the
output file when one was written (`none` when the run ended without
writing), and the indices at which a progress line went to stdout. -/
structure RunResult where
  exitCode : Nat
  written : Option (List OutEntry)
  progressIdx : List Nat
deriving DecidableEq

/-- `main`, embedded from the source.  Failure to open the input returns 1
directly; a parse exception, a constructor exception or a loop exception
unwinds to the top-level handler, which returns 1; on a completed loop the
output file is opened (returning 1 directly if that fails) and the records
are written; success returns 0.  A non-array top-level value of size 0
skips the loop (writing an empty array); one of positive size throws at the
first element access. -/
def mainRun (W : World) : RunResult :=
  if ¬ W.inputOpen then { exitCode := 1, written := none, progressIdx := [] }
  else
    match W.inputJson with
    | .error _ => { exitCode := 1, written := none, progressIdx := [] }
    | .ok input_data =>
      match (BGEEncoder.construct W.mload W.cinit).result with
      | .error _ => { exitCode := 1, written := none, progressIdx := [] }
      | .ok enc =>
        match input_data with
        | .jarr docs =>
          let r := processFrom W.eng enc docs 0
          match r.2 with
          | .error _ => { exitCode := 1, written := none, progressIdx := r.1 }
          | .ok out =>
            if W.outputOpen then
              { exitCode := 0, written := some out, progressIdx := r.1 }
            else
              { exitCode := 1, written := none, progressIdx := r.1 }
        | j =>
          if j.size = 0 then
            if W.outputOpen then
              { exitCode := 0, written := some [], progressIdx := [] }
            else
              { exitCode := 1, written := none, progressIdx := [] }
          else
            { exitCode := 1, written := none, progressIdx := [] }

/-- A well-formed input document `{id: n, text: t}`. -/
def mkDoc (n : Int) (t : String) : Json :=
  .jobj [(keyId, .jint n), (keyText, .jstr t)]

/-- A document `d` carrying exactly the fields `{id: n, text: t}` through
the accesses the driver performs (extra keys are ignored by those
accesses). -/
def docFields (d : Json) (n : Int) (t : String) : Prop :=
  d.index keyText = .ok (.jstr t) ∧ d.index keyId = .ok (.jint n)

/-- A document whose object is missing the `text` or `id` key, holds a
non-string value at `text`, or holds a non-numeric value (neither a JSON
integer nor a JSON float) at `id`.  A float at `id` is not in this class:
`get<int>()` truncates it and the run continues. -/
def missingOrWrong (kvs : List (String × Json)) : Prop :=
  (∀ t, kvs.lookup keyText ≠ some (.jstr t)) ∨
  ((∀ n, kvs.lookup keyId ≠ some (.jint n)) ∧
    (∀ q, kvs.lookup keyId ≠ some (.jfloat q)))

/-! ### Concrete fixtures used by counterexamples and witnesses -/

/-- A fully functioning engine: every text tokenizes to two tokens, every
forward pass succeeds, and the pooled buffer holds the constant 7. -/
def demoEngine : Engine where
  tok := fun _ => [101, 102]
  encodeStatus := fun _ _ => 0
  pooledEmb := fun _ _ => some (fun _ => 7)

/-- A freshly created context. -/
def demoCtx : Ctx := { kvState := 0, seqEmb := none }

/-- Context creation that always succeeds. -/
def demoCinit : LlamaModel → CtxParams → Option Ctx := fun _ _ => some demoCtx

/-- A loaded encoder-capable model of embedding dimension 2. -/
def demoModel : LlamaModel := { n_embd := 2, hasEncoder := true }

/-- The encoder `BGEEncoder.construct (some demoModel) demoCinit` yields. -/
def demoEnc : BGEEncoder := { n_embd := 2, ctx := demoCtx }

/-- `demoEnc` after one successful `encode` call. -/
def demoEnc1 : BGEEncoder :=
  { n_embd := 2, ctx := { kvState := 1, seqEmb := some (fun _ => 7) } }

/-- A run environment in which everything external succeeds and the input
parses to `input`. -/
def demoWorld (input : Except String Json) : World :=
  { inputOpen := true, inputJson := input, mload := some demoModel,
    cinit := demoCinit, eng := demoEngine, outputOpen := true }

/-- A run on the single valid document `{id: n, text: "a"}`, everything
external succeeding. -/
def idWorld (n : Int) : World := demoWorld (.ok (.jarr [mkDoc n "a"]))

/-- A run whose single input document is missing the `id` key. -/
def badWorld : World :=
  demoWorld (.ok (.jarr [Json.jobj [(keyText, Json.jstr "a")]]))

/-- A run whose single input document holds the float 2.5 at `id`. -/
def floatWorld : World :=
  demoWorld (.ok (.jarr
    [Json.jobj [(keyId, Json.jfloat (mkRat 5 2)), (keyText, Json.jstr "a")]]))

/-- 250 identical valid documents. -/
def docs250 : List Json := List.replicate 250 (mkDoc 5 "a")


/-! ### Helper lemmas -/

/-- `2^32` and `2^31` as integer literals, for `omega`. -/
theorem two_pow_32_eq : (2 : Int) ^ 32 = 4294967296 := by norm_num

theorem two_pow_31_eq : (2 : Int) ^ 31 = 2147483648 := by norm_num

/-- `toInt32` is the identity on values representable in a signed 32-bit
integer. -/
theorem toInt32_eq_self {n : Int} (h1 : -(2 ^ 31) ≤ n) (h2 : n < 2 ^ 31) :
    toInt32 n = n := by
  unfold toInt32
  rw [two_pow_32_eq, two_pow_31_eq]
  rw [two_pow_31_eq] at h1 h2
  split <;> omega

/-- `toInt32` lands in the signed 32-bit range. -/
theorem toInt32_range (n : Int) :
    -(2 ^ 31) ≤ toInt32 n ∧ toInt32 n < 2 ^ 31 := by
  unfold toInt32
  rw [two_pow_32_eq, two_pow_31_eq]
  constructor <;> (split <;> omega)

/-- `toInt32` preserves the residue modulo `2^32`. -/
theorem toInt32_emod (n : Int) : toInt32 n % 2 ^ 32 = n % 2 ^ 32 := by
  unfold toInt32
  rw [two_pow_32_eq]
  split <;> omega

/-- A successful `encode` keeps the embedding dimension and returns exactly
`n_embd` floats. -/
theorem encode_ok_inv {E : Engine} {enc enc' : BGEEncoder} {text : String}
    {v : List EmbFloat}
    (h : BGEEncoder.encode E enc text = .ok (enc', v)) :
    enc'.n_embd = enc.n_embd ∧ v.length = enc.n_embd.toNat := by
  simp only [BGEEncoder.encode] at h
  split at h
  · cases h
  · split at h
    · cases h
    · split at h
      · cases h
      · split at h
        · cases h
        · cases h
          exact ⟨rfl, by simp [readFloats]⟩

/-- A document carrying well-typed `text` and `id` fields extracts to its
text and its id narrowed to 32 bits. -/
theorem extractDoc_fields {d : Json} {n : Int} {t : String}
    (h : docFields d n t) : extractDoc d = .ok (t, toInt32 n) := by
  obtain ⟨ht, hi⟩ := h
  unfold extractDoc
  rw [ht, hi]
  rfl

/-- Successful extraction from an object document inverts to a string
`text` entry and a numeric — integer or float — `id` entry in the
object. -/
theorem extractDoc_obj_ok {kvs : List (String × Json)} {p : String × Int}
    (h : extractDoc (.jobj kvs) = .ok p) :
    (∃ t, kvs.lookup keyText = some (.jstr t)) ∧
    ((∃ n, kvs.lookup keyId = some (.jint n)) ∨
      (∃ q, kvs.lookup keyId = some (.jfloat q))) := by
  cases hT : kvs.lookup keyText with
  | none =>
      simp only [extractDoc, Json.index, hT, Json.getStr] at h
      exact Except.noConfusion h
  | some tv =>
      cases tv <;> simp only [extractDoc, Json.index, hT, Json.getStr] at h <;>
        try exact Except.noConfusion h
      case jstr t =>
        cases hI : kvs.lookup keyId with
        | none =>
            simp only [hI, Json.getInt] at h
            exact Except.noConfusion h
        | some iv =>
            cases iv <;> simp only [hI, Json.getInt] at h <;>
              try exact Except.noConfusion h
            case jint n => exact ⟨⟨t, rfl⟩, Or.inl ⟨n, rfl⟩⟩
            case jfloat q => exact ⟨⟨t, rfl⟩, Or.inr ⟨q, rfl⟩⟩

/-- A loop that completes extracted every document successfully. -/
theorem processFrom_ok_extract {E : Engine} (docs : List Json) :
    ∀ (enc : BGEEncoder) (i : Nat) (out : List OutEntry),
      (processFrom E enc docs i).2 = .ok out →
      ∀ d ∈ docs, ∃ q, extractDoc d = .ok q := by
  induction docs with
  | nil =>
      intro enc i out _ d hd
      exact absurd hd (List.not_mem_nil d)
  | cons d0 rest ih =>
      intro enc i out h d hd
      simp only [processFrom] at h
      cases hE : extractDoc d0 with
      | error e0 =>
          simp only [hE] at h
          exact Except.noConfusion h
      | ok te =>
          simp only [hE] at h
          cases hEnc : BGEEncoder.encode E enc te.1 with
          | error e0 =>
              simp only [hEnc] at h
              exact Except.noConfusion h
          | ok ee =>
              simp only [hEnc] at h
              rcases List.mem_cons.mp hd with rfl | hd
              · exact ⟨te, hE⟩
              · cases hTl : (processFrom E ee.1 rest (i + 1)).2 with
                | error e0 =>
                    simp only [hTl] at h
                    exact Except.noConfusion h
                | ok out' =>
                    exact ih ee.1 (i + 1) out' hTl d hd

/-- On documents matching `pairs` field-wise, a completed loop produces
records whose `(id, text)` projections are `pairs` with every id narrowed
to 32 bits, in the same order. -/
theorem processFrom_map {E : Engine} {docs : List Json}
    {pairs : List (Int × String)}
    (hF : List.Forall₂ (fun d q => docFields d q.1 q.2) docs pairs) :
    ∀ (enc : BGEEncoder) (i : Nat) (out : List OutEntry),
      (processFrom E enc docs i).2 = .ok out →
      out.map (fun e => (e.id, e.text)) =
        pairs.map (fun q => (toInt32 q.1, q.2)) := by
  induction hF with
  | nil =>
      intro enc i out h
      simp only [processFrom] at h
      cases h
      simp
  | @cons d q docs' pairs' hdq htl ih =>
      intro enc i out h
      simp only [processFrom, extractDoc_fields hdq] at h
      cases hEnc : BGEEncoder.encode E enc q.2 with
      | error e0 =>
          simp only [hEnc] at h
          exact Except.noConfusion h
      | ok ee =>
          simp only [hEnc] at h
          cases hTl : (processFrom E ee.1 docs' (i + 1)).2 with
          | error e0 =>
              simp only [hTl] at h
              exact Except.noConfusion h
          | ok out' =>
              simp only [hTl] at h
              cases h
              simp only [List.map_cons]
              exact congrArg _ (ih ee.1 (i + 1) out' hTl)

/-- Every record a completed loop produces has an embedding of exactly the
encoder's dimension (the encoder's dimension is never changed by
`encode`). -/
theorem processFrom_emb_len {E : Engine} (docs : List Json) :
    ∀ (enc : BGEEncoder) (i : Nat) (out : List OutEntry),
      (processFrom E enc docs i).2 = .ok out →
      ∀ e ∈ out, e.embedding.length = enc.n_embd.toNat := by
  induction docs with
  | nil =>
      intro enc i out h e he
      simp only [processFrom] at h
      cases h
      exact absurd he (List.not_mem_nil e)
  | cons d0 rest ih =>
      intro enc i out h e he
      simp only [processFrom] at h
      cases hE : extractDoc d0 with
      | error e0 =>
          simp only [hE] at h
          exact Except.noConfusion h
      | ok te =>
          simp only [hE] at h
          cases hEnc : BGEEncoder.encode E enc te.1 with
          | error e0 =>
              simp only [hEnc] at h
              exact Except.noConfusion h
          | ok ee =>
              simp only [hEnc] at h
              obtain ⟨hn, hlen⟩ := encode_ok_inv hEnc
              cases hTl : (processFrom E ee.1 rest (i + 1)).2 with
              | error e0 =>
                  simp only [hTl] at h
                  exact Except.noConfusion h
              | ok out' =>
                  simp only [hTl] at h
                  cases h
                  rcases List.mem_cons.mp he with rfl | he
                  · exact hlen
                  · rw [← hn]
                    exact ih ee.1 (i + 1) out' hTl e he

/-- A completed loop prints a progress line exactly at the indices
divisible by 100. -/
theorem processFrom_progress {E : Engine} (docs : List Json) :
    ∀ (enc : BGEEncoder) (i : Nat) (out : List OutEntry),
      (processFrom E enc docs i).2 = .ok out →
      (processFrom E enc docs i).1 =
        (List.range' i docs.length).filter (fun j => j % 100 == 0) := by
  induction docs with
  | nil =>
      intro enc i out _
      simp [processFrom]
  | cons d0 rest ih =>
      intro enc i out h
      simp only [processFrom] at h ⊢
      cases hE : extractDoc d0 with
      | error e0 =>
          simp only [hE] at h
          exact Except.noConfusion h
      | ok te =>
          simp only [hE] at h ⊢
          cases hEnc : BGEEncoder.encode E enc te.1 with
          | error e0 =>
              simp only [hEnc] at h
              exact Except.noConfusion h
          | ok ee =>
              simp only [hEnc] at h ⊢
              cases hTl : (processFrom E ee.1 rest (i + 1)).2 with
              | error e0 =>
                  simp only [hTl] at h
                  exact Except.noConfusion h
              | ok out' =>
                  have hr := ih ee.1 (i + 1) out' hTl
                  rw [List.length_cons, List.range'_succ, List.filter_cons]
                  by_cases hmod : i % 100 = 0
                  · simp [hmod, hr]
                  · simp [hmod, hr]

/-- Inversion of a run whose input parsed to an array: either it ended with
exit code 1 and nothing written, or the constructor succeeded, the loop
completed, and the run wrote exactly the loop's records. -/
theorem mainRun_inv (W : World) (docs : List Json)
    (hin : W.inputJson = .ok (.jarr docs)) :
    ((mainRun W).exitCode = 1 ∧ (mainRun W).written = none) ∨
    (∃ enc out,
      (BGEEncoder.construct W.mload W.cinit).result = .ok enc ∧
      (processFrom W.eng enc docs 0).2 = .ok out ∧
      mainRun W =
        { exitCode := 0, written := some out,
          progressIdx := (processFrom W.eng enc docs 0).1 }) := by
  by_cases hio : W.inputOpen
  · cases hcr : (BGEEncoder.construct W.mload W.cinit).result with
    | error e =>
        left
        unfold mainRun
        rw [hin]
        simp [hio, hcr]
    | ok enc =>
        cases hpf : (processFrom W.eng enc docs 0).2 with
        | error e =>
            left
            unfold mainRun
            rw [hin]
            simp [hio, hcr, hpf]
        | ok out =>
            by_cases ho : W.outputOpen
            · right
              refine ⟨enc, out, rfl, hpf, ?_⟩
              unfold mainRun
              rw [hin]
              simp [hio, hcr, hpf, ho]
            · left
              unfold mainRun
              rw [hin]
              simp [hio, hcr, hpf, ho]
  · left
    unfold mainRun
    simp [hio]

/-- Inversion of any run that wrote an output file: the file holds either
the empty array (written when the top-level value has size 0) or exactly
the records of a completed loop over a parsed input array. -/
theorem mainRun_written_inv (W : World) (out : List OutEntry)
    (hrun : (mainRun W).written = some out) :
    out = [] ∨
    ∃ docs enc,
      W.inputJson = .ok (.jarr docs) ∧
      (BGEEncoder.construct W.mload W.cinit).result = .ok enc ∧
      (processFrom W.eng enc docs 0).2 = .ok out := by
  by_cases hio : W.inputOpen
  · cases hj : W.inputJson with
    | error e =>
        unfold mainRun at hrun
        rw [hj] at hrun
        simp [hio] at hrun
    | ok input =>
        cases hcr : (BGEEncoder.construct W.mload W.cinit).result with
        | error e =>
            unfold mainRun at hrun
            rw [hj] at hrun
            simp [hio, hcr] at hrun
        | ok enc =>
            cases input with
            | jarr docs =>
                cases hpf : (processFrom W.eng enc docs 0).2 with
                | error e =>
                    unfold mainRun at hrun
                    rw [hj] at hrun
                    simp [hio, hcr, hpf] at hrun
                | ok out' =>
                    by_cases ho : W.outputOpen
                    · unfold mainRun at hrun
                      rw [hj] at hrun
                      simp [hio, hcr, hpf, ho] at hrun
                      subst hrun
                      exact Or.inr ⟨docs, enc, rfl, rfl, hpf⟩
                    · unfold mainRun at hrun
                      rw [hj] at hrun
                      simp [hio, hcr, hpf, ho] at hrun
            | null =>
                unfold mainRun at hrun
                rw [hj] at hrun
                by_cases ho : W.outputOpen
                · simp [hio, hcr, ho, Json.size] at hrun
                  exact Or.inl hrun
                · simp [hio, hcr, ho, Json.size] at hrun
            | jbool b =>
                unfold mainRun at hrun
                rw [hj] at hrun
                simp [hio, hcr, Json.size] at hrun
            | jint n =>
                unfold mainRun at hrun
                rw [hj] at hrun
                simp [hio, hcr, Json.size] at hrun
            | jfloat q =>
                unfold mainRun at hrun
                rw [hj] at hrun
                simp [hio, hcr, Json.size] at hrun
            | jstr s =>
                unfold mainRun at hrun
                rw [hj] at hrun
                simp [hio, hcr, Json.size] at hrun
            | jobj kvs =>
                unfold mainRun at hrun
                rw [hj] at hrun
                cases kvs with
                | nil =>
                    by_cases ho : W.outputOpen
                    · simp [hio, hcr, ho, Json.size] at hrun
                      exact Or.inl hrun
                    · simp [hio, hcr, ho, Json.size] at hrun
                | cons kv rest =>
                    simp [hio, hcr, Json.size] at hrun
  · unfold mainRun at hrun
    simp [hio] at hrun

/-- When the tokenizer yields no tokens, `encode` throws the tokenization
error (the dry run reports 0). -/
theorem encode_zero {E : Engine} {enc : BGEEncoder} {text : String}
    (hz : (E.tok text).length = 0) :
    BGEEncoder.encode E enc text = .error "Failed to tokenize text" := by
  simp [BGEEncoder.encode, llama_tokenize, hz]

/-- When the tokenizer yields a positive count, `encode` passes both
tokenization steps and proceeds to the forward pass on the full token
list. -/
theorem encode_pos_unfold {E : Engine} {enc : BGEEncoder} {text : String}
    (hpos : 0 < (E.tok text).length) :
    BGEEncoder.encode E enc text =
      if (llama_encode E enc.ctx (E.tok text)).2 ≠ 0 then
        .error "Failed to encode batch"
      else
        match llama_get_embeddings_seq (llama_encode E enc.ctx (E.tok text)).1 0 with
        | none => .error "Failed to get embeddings"
        | some embd =>
            .ok ({ enc with ctx := (llama_encode E enc.ctx (E.tok text)).1 },
              readFloats embd enc.n_embd.toNat) := by
  have h1 : ¬ ((E.tok text).length ≤ 0) := by omega
  simp only [BGEEncoder.encode, llama_tokenize, if_neg h1, neg_neg]
  rw [if_neg (show ¬ ((((E.tok text).length : Nat) : Int) ≤ 0) by omega)]
  rw [Int.toNat_natCast]
  rw [if_pos (le_refl (E.tok text).length)]
  rw [if_neg (show ¬ ((((E.tok text).length : Nat) : Int) < 0) by omega)]

/-! ### Claim theorems -/

/-- Claim C4: the token count comes from a tokenizer dry run whose required
buffer size is returned negated (the library's signed-return convention,
here over a null buffer of capacity 0); `encode` raises the tokenization
error exactly when the reported count is zero or negative; otherwise the
second tokenization call, over a buffer of exactly the reported size,
returns that size (no error), and `encode` proceeds. -/
theorem encode_tokenize_convention (E : Engine) (enc : BGEEncoder)
    (text : String) :
    llama_tokenize E.tok text 0 = -(((E.tok text).length : Nat) : Int) ∧
    llama_tokenize E.tok text (E.tok text).length =
      (((E.tok text).length : Nat) : Int) ∧
    (BGEEncoder.encode E enc text = .error "Failed to tokenize text" ↔
      (E.tok text).length = 0) := by
  refine ⟨?_, ?_, ?_⟩
  · unfold llama_tokenize
    split
    · omega
    · rfl
  · unfold llama_tokenize
    rw [if_pos (le_refl (E.tok text).length)]
  · by_cases hk : (E.tok text).length = 0
    · exact ⟨fun _ => hk, fun _ => encode_zero hk⟩
    · have hpos : 0 < (E.tok text).length := Nat.pos_of_ne_zero hk
      rw [encode_pos_unfold hpos]
      constructor
      · intro herr
        exfalso
        split at herr
        · exact absurd (Except.error.inj herr) (by decide)
        · split at herr
          · exact absurd (Except.error.inj herr) (by decide)
          · exact Except.noConfusion herr
      · intro h0
        exact absurd h0 hk

/-- On a zero forward-pass status, `llama_encode` stores the pooled buffer
and returns 0. -/
theorem llama_encode_ok_eq {E : Engine} {c : Ctx} {batch : List Int}
    (h : E.encodeStatus c.kvState batch = 0) :
    llama_encode E c batch =
      ({ kvState := c.kvState + 1, seqEmb := E.pooledEmb c.kvState batch },
        0) := by
  unfold llama_encode
  rw [if_pos h]

/-- On a nonzero forward-pass status, `llama_encode` keeps the buffer and
returns the status. -/
theorem llama_encode_fail_eq {E : Engine} {c : Ctx} {batch : List Int}
    (h : ¬ E.encodeStatus c.kvState batch = 0) :
    llama_encode E c batch =
      ({ c with kvState := c.kvState + 1 },
        E.encodeStatus c.kvState batch) := by
  unfold llama_encode
  rw [if_neg h]

/-- Claim C9: provided the engine's forward-pass status and pooled
embedding depend only on the submitted batch (the engine's determinism
guarantee) and not on the context's accumulated internal state, encoding
the same text again on the encoder returned by a successful `encode` — the
second call running on the context already mutated by the first — returns
the identical embedding vector. -/
theorem encode_deterministic (E : Engine)
    (hS : ∀ s s' b, E.encodeStatus s b = E.encodeStatus s' b)
    (hP : ∀ s s' b, E.pooledEmb s b = E.pooledEmb s' b)
    (enc enc' : BGEEncoder) (text : String) (v : List EmbFloat)
    (h1 : BGEEncoder.encode E enc text = .ok (enc', v)) :
    ∃ enc'', BGEEncoder.encode E enc' text = .ok (enc'', v) := by
  by_cases hk : (E.tok text).length = 0
  · rw [encode_zero hk] at h1
    exact Except.noConfusion h1
  · have hpos : 0 < (E.tok text).length := Nat.pos_of_ne_zero hk
    rw [encode_pos_unfold hpos] at h1
    rw [encode_pos_unfold hpos]
    have hs := hS enc'.ctx.kvState enc.ctx.kvState (E.tok text)
    have hp := hP enc'.ctx.kvState enc.ctx.kvState (E.tok text)
    by_cases hst : E.encodeStatus enc.ctx.kvState (E.tok text) = 0
    · rw [llama_encode_ok_eq hst] at h1
      rw [llama_encode_ok_eq (by rw [hs]; exact hst), hp]
      simp only [llama_get_embeddings_seq] at h1 ⊢
      simp at h1 ⊢
      cases hpe : E.pooledEmb enc.ctx.kvState (E.tok text) with
      | none =>
          rw [hpe] at h1
          simp at h1
      | some f =>
          rw [hpe] at h1
          have h1' : BGEEncoder.mk enc.n_embd
                (Ctx.mk (enc.ctx.kvState + 1) (some f)) = enc' ∧
              readFloats f enc.n_embd.toNat = v := by
            simpa using h1
          obtain ⟨he, hv⟩ := h1'
          subst he
          subst hv
          exact ⟨_, rfl⟩
    · exfalso
      rw [llama_encode_fail_eq hst] at h1
      simp [hst] at h1

/-- Claim C1 counterexample: the claim fails as stated.  The single
document `{id: 2^31, text: "a"}` is a valid input (integer id, string
text), the run succeeds, but the output id is `-(2^31)`, not `2^31`: the
id round-trip is broken by the 32-bit narrowing of `get<int>()`. -/
theorem roundtrip_id_cex :
    (idWorld (2 ^ 31)).inputJson = .ok (.jarr [mkDoc (2 ^ 31) "a"]) ∧
    mainRun (idWorld (2 ^ 31)) =
      { exitCode := 0,
        written := some [{ id := -(2 ^ 31), text := "a", embedding := [7, 7] }],
        progressIdx := [0] } ∧
    (-(2 ^ 31) : Int) ≠ 2 ^ 31 :=
  ⟨rfl, by decide, by decide⟩

/-- Claim C1 (amended): for every valid input array whose ids are
representable in a signed 32-bit integer, a successful run writes an output
array of the same length in which record `i` carries exactly input `i`'s
id and text, in the input's order. -/
theorem roundtrip_shape_amended (W : World) (docs : List Json)
    (pairs : List (Int × String)) (out : List OutEntry)
    (hin : W.inputJson = .ok (.jarr docs))
    (hdocs : List.Forall₂ (fun d q => docFields d q.1 q.2) docs pairs)
    (hrange : ∀ q ∈ pairs, -(2 ^ 31) ≤ q.1 ∧ q.1 < 2 ^ 31)
    (hrun : (mainRun W).written = some out) :
    out.length = docs.length ∧
    out.map (fun e => (e.id, e.text)) = pairs := by
  rcases mainRun_inv W docs hin with ⟨_, hw⟩ | ⟨enc, out', hcr, hpf, hrun'⟩
  · rw [hw] at hrun
    exact Option.noConfusion hrun
  · rw [hrun'] at hrun
    have hoo : out' = out := by
      simpa using hrun
    subst hoo
    have hmap := processFrom_map hdocs enc 0 out' hpf
    have hpairs : pairs.map (fun q => (toInt32 q.1, q.2)) = pairs := by
      have h1 : pairs.map (fun q => (toInt32 q.1, q.2)) =
          pairs.map (fun q => q) := by
        apply List.map_congr_left
        intro q hq
        rcases hrange q hq with ⟨ha, hb⟩
        rw [toInt32_eq_self ha hb]
      rw [h1, List.map_id']
    refine ⟨?_, hmap.trans hpairs⟩
    have hlen : out'.length = pairs.length := by
      have := congrArg List.length (hmap.trans hpairs)
      simpa using this
    rw [hlen, hdocs.length_eq]

/-- Claim C1 witness instance: a concrete in-range run round-trips. -/
theorem roundtrip_shape_amended_witness :
    (mainRun (idWorld 5)).written =
      some [{ id := 5, text := "a", embedding := [7, 7] }] ∧
    [OutEntry.mk 5 "a" [7, 7]].map (fun e => (e.id, e.text)) =
      [((5 : Int), "a")] := by
  refine ⟨rfl, ?_⟩
  exact (roundtrip_shape_amended (idWorld 5) [mkDoc 5 "a"] [(5, "a")]
    [OutEntry.mk 5 "a" [7, 7]] rfl
    (List.Forall₂.cons ⟨rfl, rfl⟩ List.Forall₂.nil)
    (by intro q hq; cases List.mem_singleton.mp hq; exact ⟨by decide, by decide⟩)
    rfl).2

/-- Claim C2: every record of a written output file carries an embedding
of length exactly `get_embedding_dim()` of the constructed encoder,
whatever the text or token count. -/
theorem embedding_length_invariant (W : World) (enc : BGEEncoder)
    (henc : (BGEEncoder.construct W.mload W.cinit).result = .ok enc)
    (out : List OutEntry) (hrun : (mainRun W).written = some out) :
    ∀ e ∈ out, e.embedding.length = enc.get_embedding_dim.toNat := by
  rcases mainRun_written_inv W out hrun with rfl | ⟨docs, enc2, _, hcr, hpf⟩
  · intro e he
    exact absurd he (List.not_mem_nil e)
  · have heq : enc2 = enc := by
      rw [henc] at hcr
      exact (Except.ok.inj hcr).symm
    subst heq
    exact processFrom_emb_len docs enc2 0 out hpf

/-- Claim C2 witness instance. -/
theorem embedding_length_invariant_witness :
    (BGEEncoder.construct (idWorld 5).mload (idWorld 5).cinit).result =
      .ok demoEnc ∧
    (mainRun (idWorld 5)).written =
      some [{ id := 5, text := "a", embedding := [7, 7] }] ∧
    (OutEntry.mk 5 "a" [7, 7]).embedding.length =
      demoEnc.get_embedding_dim.toNat := by
  refine ⟨rfl, rfl, ?_⟩
  exact embedding_length_invariant (idWorld 5) demoEnc rfl
    [OutEntry.mk 5 "a" [7, 7]] rfl (OutEntry.mk 5 "a" [7, 7])
    (List.mem_singleton.mpr rfl)

/-- Claim C3 counterexample: the claim fails as stated for a wrong-typed
float-valued `id`.  On the input `[{"id": 2.5, "text": "a"}]` — whose `id`
key holds a non-integer JSON value — the run does not abort:
`get<int>()` truncates the stored double to 2, the run exits 0 and writes
the output file. -/
theorem failfast_float_id_cex :
    floatWorld.inputJson =
      .ok (.jarr
        [Json.jobj [(keyId, Json.jfloat (mkRat 5 2)),
          (keyText, Json.jstr "a")]]) ∧
    mainRun floatWorld =
      { exitCode := 0,
        written := some [{ id := 2, text := "a", embedding := [7, 7] }],
        progressIdx := [0] } :=
  ⟨rfl, by decide⟩

/-- Claim C3 (amended): an input array containing an object document
missing the `text` or `id` key, or holding a non-string value at `text`,
or holding a non-numeric value at `id` — a float-valued `id` excepted,
since `get<int>()` truncates it and continues — makes the whole run end
with exit code 1 and no output file written (so a previous run's file is
untouched); there is no per-document recovery or skipping on any such
run. -/
theorem failfast_malformed_input (W : World) (docs : List Json)
    (kvs : List (String × Json))
    (hin : W.inputJson = .ok (.jarr docs))
    (hmem : Json.jobj kvs ∈ docs)
    (hbad : missingOrWrong kvs) :
    (mainRun W).exitCode = 1 ∧ (mainRun W).written = none := by
  rcases mainRun_inv W docs hin with h | ⟨enc, out, hcr, hpf, hrun⟩
  · exact h
  · exfalso
    obtain ⟨q, hq⟩ :=
      processFrom_ok_extract docs enc 0 out hpf (Json.jobj kvs) hmem
    obtain ⟨⟨t, hT⟩, hId⟩ := extractDoc_obj_ok hq
    rcases hbad with hb | ⟨hbi, hbf⟩
    · exact hb t hT
    · rcases hId with ⟨n, hI⟩ | ⟨qf, hI⟩
      · exact hbi n hI
      · exact hbf qf hI

/-- Claim C3 witness instance: a run over one document lacking `id`. -/
theorem failfast_malformed_input_witness :
    (mainRun badWorld).exitCode = 1 ∧ (mainRun badWorld).written = none := by
  refine failfast_malformed_input badWorld
    [Json.jobj [(keyText, Json.jstr "a")]] [(keyText, Json.jstr "a")] rfl
    (List.mem_singleton.mpr rfl) ?_
  exact Or.inr ⟨fun n h => Option.noConfusion h,
    fun q h => Option.noConfusion h⟩

/-- Claim C5: for a model whose embedding dimension differs from 768,
construction still succeeds (the mismatch only adds the non-fatal warning
to stderr), and every embedding a successful `encode` on the constructed
encoder returns has the model's actual dimension, not 768. -/
theorem dim_mismatch_nonfatal (m : LlamaModel)
    (cinit : LlamaModel → CtxParams → Option Ctx) (c : Ctx)
    (hdim : m.n_embd ≠ 768) (hc : cinit m bgeCtxParams = some c) :
    (BGEEncoder.construct (some m) cinit).result =
      .ok { n_embd := m.n_embd, ctx := c } ∧
    dimWarningMsg m ∈ (BGEEncoder.construct (some m) cinit).warnings ∧
    ∀ (E : Engine) (text : String) (enc' : BGEEncoder) (v : List EmbFloat),
      BGEEncoder.encode E { n_embd := m.n_embd, ctx := c } text =
          .ok (enc', v) →
      v.length = m.n_embd.toNat := by
  refine ⟨?_, ?_, ?_⟩
  · simp [BGEEncoder.construct, hc]
  · simp [BGEEncoder.construct, hc, hdim]
  · intro E text enc' v hv
    exact (encode_ok_inv hv).2

/-- Claim C5 witness instance: a model of dimension 384. -/
theorem dim_mismatch_nonfatal_witness :
    (BGEEncoder.construct (some (LlamaModel.mk 384 true)) demoCinit).result =
      .ok { n_embd := 384, ctx := demoCtx } ∧
    dimWarningMsg (LlamaModel.mk 384 true) ∈
      (BGEEncoder.construct (some (LlamaModel.mk 384 true)) demoCinit).warnings := by
  have h := dim_mismatch_nonfatal (LlamaModel.mk 384 true) demoCinit demoCtx
    (by decide) rfl
  exact ⟨h.1, h.2.1⟩

/-- Claim C6: with the input file openable, parsing to the empty array,
the model loadable (the constructor succeeding) and the output file
openable, the run writes the empty output array, prints no progress line,
and exits with code 0. -/
theorem empty_input_run (W : World) (enc : BGEEncoder)
    (hio : W.inputOpen = true)
    (hin : W.inputJson = .ok (.jarr []))
    (henc : (BGEEncoder.construct W.mload W.cinit).result = .ok enc)
    (ho : W.outputOpen = true) :
    mainRun W = { exitCode := 0, written := some [], progressIdx := [] } := by
  unfold mainRun
  rw [hin]
  simp [hio, henc, ho, processFrom]

/-- Claim C6 witness instance. -/
theorem empty_input_run_witness :
    mainRun (demoWorld (.ok (.jarr []))) =
      { exitCode := 0, written := some [], progressIdx := [] } :=
  empty_input_run (demoWorld (.ok (.jarr []))) demoEnc rfl rfl rfl rfl

/-- Claim C7: on a successful run over a parsed input array, a progress
line is printed exactly at the zero-based indices divisible by 100. -/
theorem progress_every_100 (W : World) (docs : List Json)
    (hin : W.inputJson = .ok (.jarr docs))
    (h0 : (mainRun W).exitCode = 0) :
    (mainRun W).progressIdx =
      (List.range docs.length).filter (fun j => j % 100 == 0) := by
  rcases mainRun_inv W docs hin with ⟨h1, _⟩ | ⟨enc, out, hcr, hpf, hrun⟩
  · rw [h1] at h0
    exact absurd h0 (by decide)
  · rw [hrun]
    rw [List.range_eq_range']
    exact processFrom_progress docs enc 0 out hpf

set_option maxRecDepth 40000 in
/-- Claim C7 witness instance: 250 documents emit progress lines at
indices 0, 100 and 200 only. -/
theorem progress_every_100_witness :
    (mainRun (demoWorld (.ok (.jarr docs250)))).exitCode = 0 ∧
    (mainRun (demoWorld (.ok (.jarr docs250)))).progressIdx =
      [0, 100, 200] := by
  have h := progress_every_100 (demoWorld (.ok (.jarr docs250))) docs250 rfl
    (by rfl)
  refine ⟨by rfl, ?_⟩
  rw [h]
  rfl

/-- Claim C8: when context creation fails during construction, the
constructor fails fatally with the context error, and on that path the
already-loaded model has been freed before the failure propagates — the
event trace is load-then-free, so no model handle is leaked. -/
theorem ctx_fail_frees_model (m : LlamaModel)
    (cinit : LlamaModel → CtxParams → Option Ctx)
    (hc : cinit m bgeCtxParams = none) :
    (BGEEncoder.construct (some m) cinit).result =
      .error "Failed to create context" ∧
    (BGEEncoder.construct (some m) cinit).events =
      [.modelLoad, .modelFree] ∧
    modelBalanced (BGEEncoder.construct (some m) cinit).events = true := by
  have he : (BGEEncoder.construct (some m) cinit).events =
      [.modelLoad, .modelFree] := by
    simp [BGEEncoder.construct, hc]
  refine ⟨?_, he, ?_⟩
  · simp [BGEEncoder.construct, hc]
  · rw [he]
    decide

/-- Claim C8 witness instance. -/
theorem ctx_fail_frees_model_witness :
    (BGEEncoder.construct (some demoModel) (fun _ _ => none)).result =
      .error "Failed to create context" ∧
    modelBalanced
      (BGEEncoder.construct (some demoModel) (fun _ _ => none)).events =
      true := by
  have h := ctx_fail_frees_model demoModel (fun _ _ => none) rfl
  exact ⟨h.1, h.2.2⟩

/-- Claim C10: a JSON integer id outside the signed 32-bit range does not
make the run fail: `get<int>()` succeeds, narrowing the value modulo 2^32
reinterpreted as signed (same residue modulo 2^32, result in range), the
document extracts, a fully successful run still exits 0 — and the output
id differs from the input id. -/
theorem id_narrowing_mod32 (n : Int)
    (h : n < -(2 ^ 31) ∨ 2 ^ 31 ≤ n) :
    Json.getInt (.jint n) = .ok (toInt32 n) ∧
    extractDoc (mkDoc n "a") = .ok ("a", toInt32 n) ∧
    toInt32 n % 2 ^ 32 = n % 2 ^ 32 ∧
    (-(2 ^ 31) ≤ toInt32 n ∧ toInt32 n < 2 ^ 31) ∧
    toInt32 n ≠ n ∧
    mainRun (idWorld n) =
      { exitCode := 0,
        written := some [{ id := toInt32 n, text := "a", embedding := [7, 7] }],
        progressIdx := [0] } := by
  refine ⟨rfl, extractDoc_fields ⟨rfl, rfl⟩, toInt32_emod n, toInt32_range n,
    ?_, ?_⟩
  · rcases toInt32_range n with ⟨h1, h2⟩
    rw [two_pow_31_eq] at h1 h2
    rcases h with h | h <;> (rw [two_pow_31_eq] at h; omega)
  · rfl

/-- Claim C10 witness instance at `n = 2^31`. -/
theorem id_narrowing_mod32_witness :
    ((2 ^ 31 : Int) < -(2 ^ 31) ∨ (2 ^ 31 : Int) ≤ 2 ^ 31) ∧
    Json.getInt (.jint (2 ^ 31)) = .ok (-(2 ^ 31)) ∧
    toInt32 (2 ^ 31) ≠ 2 ^ 31 := by
  have h := id_narrowing_mod32 (2 ^ 31) (Or.inr le_rfl)
  refine ⟨Or.inr le_rfl, ?_, h.2.2.2.2.1⟩
  have he : toInt32 (2 ^ 31) = -(2 ^ 31) := by decide
  rw [← he]
  exact h.1

/-- Claim C9 witness instance: two consecutive `encode` calls on the demo
engine return the same vector. -/
theorem encode_deterministic_witness :
    BGEEncoder.encode demoEngine demoEnc "hi" = .ok (demoEnc1, [7, 7]) ∧
    ∃ enc'', BGEEncoder.encode demoEngine demoEnc1 "hi" = .ok (enc'', [7, 7]) := by
  refine ⟨rfl, ?_⟩
  exact encode_deterministic demoEngine (fun _ _ _ => rfl) (fun _ _ _ => rfl)
    demoEnc demoEnc1 "hi" [7, 7] rfl
